import Mathlib

/-!
Verification of the NVMP remover script (src/remove_nvmp.py).

The script is shallowly embedded: every pure computation of the script is a
Lean function, and each filesystem-touching routine is a pure function of an
explicit description of the relevant filesystem facts (existence flags, the
triples produced by the os.walk enumeration, injected OS exceptions, file
contents as lists of terminator-carrying lines).  Text is modelled at the
ASCII level: Python str.lower corresponds to Char.toLower, and the character
classes of the regular expressions are taken in their ASCII meaning, which is
exact for every name and line the script targets.
-/

namespace NVMP

/-! ## Text basics -/

/-- A filesystem path, as its list of components (pathlib parts, with the
drive as the first component on Windows). -/
abbrev FPath := List String

/-- Python str.lower on a Lean string (ASCII scope of Char.toLower). -/
def lowerStr (s : String) : String := String.mk (s.data.map Char.toLower)

/-- Rendering of a path as its joined string, str(p) with the Windows
separator. -/
def pathStr (p : FPath) : String := String.intercalate "\x5c" p

/-- The case-folded comparison key str(p).lower() used by the script both for
deduplication sets and for sort keys. -/
def lowKey (p : FPath) : List Char := (pathStr p).data.map Char.toLower

/-- Lexicographic (code-point) order on character lists, the order Python
uses to compare strings. -/
def lexLe : List Char → List Char → Bool
  | [], _ => true
  | _ :: _, [] => false
  | a :: as, b :: bs =>
    if a.toNat = b.toNat then lexLe as bs else decide (a.toNat < b.toNat)

/-! ## Matcher (src/remove_nvmp.py lines 33-48 and 68-71) -/

/-- The regex class backslash-w restricted to ASCII: letters, digits and the
underscore. -/
def isWordChar (c : Char) : Bool := c.isAlphanum || c = '_'

/-- The regex class backslash-s restricted to ASCII whitespace. -/
def isPySpace (c : Char) : Bool :=
  c = ' ' || c = '\t' || c = '\n' || c = '\r' || c = '\x0b' || c = '\x0c'

/-- Does lowered text start with the token nvmp followed by a word boundary
(end of text or a non-word character)? -/
def nvmpHere : List Char → Bool
  | 'n' :: 'v' :: 'm' :: 'p' :: rest =>
    match rest with
    | [] => true
    | d :: _ => !(isWordChar d)
  | _ => false

/-- Search for the pattern word-boundary nvmp word-boundary in lowered text;
the argument prev is the character just before the current position.  Because
the letter n is a word character, the left boundary holds exactly when prev
is absent or not a word character. -/
def hasWordNVMP : Option Char → List Char → Bool
  | _, [] => false
  | prev, c :: rest =>
    ((match prev with
      | none => true
      | some b => !(isWordChar b)) && nvmpHere (c :: rest))
      || hasWordNVMP (some c) rest

/-- Substring search (re.search of a literal pattern). -/
def hasSub (pat : List Char) : List Char → Bool
  | [] => pat.isEmpty
  | c :: rest => pat.isPrefixOf (c :: rest) || hasSub pat rest

/-- Match of the pattern new backslash-s-star vegas backslash-s-star tailPat
anchored at the head of lowered text.  Skipping a maximal run of whitespace
is equivalent to the regex star here because both vegas and the tails mp and
multiplayer begin with a non-space character. -/
def spacedNVAt (tailPat : List Char) (l : List Char) : Bool :=
  if ("new".data.isPrefixOf l) then
    let l1 := (l.drop 3).dropWhile isPySpace
    if ("vegas".data.isPrefixOf l1) then
      tailPat.isPrefixOf ((l1.drop 5).dropWhile isPySpace)
    else false
  else false

/-- Search (at every position) of the spaced new-vegas pattern. -/
def searchSpacedNV (tailPat : List Char) (l : List Char) : Bool :=
  l.tails.any (fun t => spacedNVAt tailPat t)

/-- NVMP_KNOWN_FILENAMES (lines 42-48). -/
def NVMP_KNOWN_FILENAMES : List String :=
  ["nvmp_launcher.exe", "nvmp_start.exe", "nvmp_storyserver.exe",
   "nvmp.log", "nvmp_launcher_last_error.log"]

/-- The disjunction of the five NVMP_NAME_PATTERNS (lines 33-39), applied to
the lowered text, which is equivalent to the IGNORECASE searches of the
source. -/
def searchPatterns (low : List Char) : Bool :=
  hasWordNVMP none low
    || hasSub ("nvmp_".data) low
    || searchSpacedNV ("mp".data) low
    || hasSub ("newvegasmp".data) low
    || searchSpacedNV ("multiplayer".data) low

/-- pat_match (lines 68-71): known filename by lowercase equality, else any
name pattern. -/
def pat_match (name : String) : Bool :=
  if NVMP_KNOWN_FILENAMES.contains (lowerStr name) then true
  else searchPatterns (lowerStr name).data

/-! ## Covering-path collapse (src/remove_nvmp.py lines 322-330) -/

/-- p.parents of pathlib on a resolved absolute path: every nonempty strict
prefix of the component list (the anchor is the single first component, so
the shortest parent is the one-component prefix). -/
def parentsOf (p : FPath) : List FPath :=
  ((List.range p.length).drop 1).map (fun k => p.take k)

/-- The sort key of line 326: the pair of the component count and the
case-folded path string, compared as Python compares key tuples. -/
def collapseLe (p q : FPath) : Bool :=
  decide (p.length < q.length)
    || (decide (p.length = q.length) && lexLe (lowKey p) (lowKey q))

/-- collapse_covered_paths (lines 322-330): sort by depth then case-folded
string, then keep exactly the paths none of whose ancestors is in the input
set.  The Python sorted builtin is a stable sort by a total preorder key, so
it is extensionally the insertion sort below. -/
def collapse_covered_paths (paths : List FPath) : List FPath :=
  (paths.insertionSort (fun p q => collapseLe p q = true)).filter
    (fun p => !((parentsOf p).any (fun q => paths.contains q)))

/-! ## Scanner (src/remove_nvmp.py lines 289-319) -/

/-- One yield of os.walk: the directory path, the names of the directories
in it, and the names of the files in it.  The walk enumeration itself is an
OS call; the scanner consumes its triples in order, so the scanner is
modelled as a function of the triple lists (one list per scanned root). -/
structure WalkTriple where
  dirpath : FPath
  dirnames : List String
  filenames : List String

/-- The mutable state of the scanner loop: the recorded matches in order and
the set of already-seen case-folded path strings. -/
structure WalkSt where
  matchList : List FPath
  seen : List (List Char)

/-- The local helper add (lines 293-298): record a path unless its
case-folded string was already seen. -/
def addMatch (st : WalkSt) (p : FPath) : WalkSt :=
  if st.seen.contains (lowKey p) then st
  else { matchList := st.matchList ++ [p], seen := lowKey p :: st.seen }

/-- One of the two inner name loops (lines 306-317): test each name, record
a hit under the current directory, and return early (Sum.inr) with the
matches recorded so far once their number reaches the cap. -/
def scanNames (max_matches : Nat) (dp : FPath) :
    List String → WalkSt → WalkSt ⊕ List FPath
  | [], st => Sum.inl st
  | n :: rest, st =>
    if pat_match n then
      let st2 := addMatch st (dp ++ [n])
      if max_matches ≤ st2.matchList.length then Sum.inr st2.matchList
      else scanNames max_matches dp rest st2
    else scanNames max_matches dp rest st

/-- The walk loop over the triples of one root (lines 302-317): directories
are checked before files in each directory. -/
def walkTriples (max_matches : Nat) :
    List WalkTriple → WalkSt → WalkSt ⊕ List FPath
  | [], st => Sum.inl st
  | t :: rest, st =>
    match scanNames max_matches t.dirpath t.dirnames st with
    | Sum.inr r => Sum.inr r
    | Sum.inl st1 =>
      match scanNames max_matches t.dirpath t.filenames st1 with
      | Sum.inr r => Sum.inr r
      | Sum.inl st2 => walkTriples max_matches rest st2

/-- The outer loop over the roots (line 300). -/
def walkRoots (max_matches : Nat) :
    List (List WalkTriple) → WalkSt → WalkSt ⊕ List FPath
  | [], st => Sum.inl st
  | w :: ws, st =>
    match walkTriples max_matches w st with
    | Sum.inr r => Sum.inr r
    | Sum.inl st2 => walkRoots max_matches ws st2

/-- walk_find_matches (lines 289-319): an early return hands back the
partial match list as is; a completed walk returns the matches sorted by
their case-folded path string (a stable sort by a total preorder key, hence
extensionally the insertion sort below). -/
def walk_find_matches (rootWalks : List (List WalkTriple)) (max_matches : Nat) :
    List FPath :=
  match walkRoots max_matches rootWalks ⟨[], []⟩ with
  | Sum.inr early => early
  | Sum.inl st => st.matchList.insertionSort (fun p q => lexLe (lowKey p) (lowKey q) = true)

/-! ## Locator root assembly (src/remove_nvmp.py lines 234-283) -/

/-- The closing loop of build_roots (lines 269-283): resolve each candidate
(best effort, a resolve failure keeps the raw path), skip candidates whose
case-folded string was already taken, and keep exactly the candidates that
exist.  The resolver and the existence test are the filesystem facts the
loop consults, passed in as functions. -/
def dedupExisting (res : FPath → Option FPath) (pathExists : FPath → Bool) :
    List FPath → List (List Char) → List FPath
  | [], _ => []
  | r :: rest, seen =>
    let rr := (res r).getD r
    if seen.contains (lowKey rr) then dedupExisting res pathExists rest seen
    else if pathExists rr then
      rr :: dedupExisting res pathExists rest (lowKey rr :: seen)
    else dedupExisting res pathExists rest seen

/-- build_roots (lines 234-283): the game directory with its two fixed
subdirectories, the per-user directories, the Vortex root (explicit or the
conventional defaults) and the MO2 roots (explicit or the ones found near
the game), all fed through the existence-filtering dedup loop.  The
candidate sources that read the environment (user_dirs,
likely_vortex_mod_roots, likely_mo2_roots_near_game) enter as the lists they
produced. -/
def build_roots (game_dir mo2_dir vortex_dir : Option FPath)
    (userDirs vortexDefaults mo2Near : List FPath)
    (res : FPath → Option FPath) (pathExists : FPath → Bool) : List FPath :=
  let gameRoots := match game_dir with
    | some g => [g, g ++ ["Data"], g ++ ["Data", "nvse", "plugins"]]
    | none => []
  let vortexRoots := match vortex_dir with
    | some v => [v]
    | none => vortexDefaults
  let mo2Expand := fun (m : FPath) =>
    [m, m ++ ["mods"], m ++ ["overwrite"], m ++ ["profiles"]]
  let mo2Roots := match mo2_dir with
    | some m => mo2Expand m
    | none => (mo2Near.map mo2Expand).flatten
  dedupExisting res pathExists
    (gameRoots ++ userDirs ++ vortexRoots ++ mo2Roots) []

/-! ## Remover (src/remove_nvmp.py lines 336-368) -/

/-- An OS exception raised by a filesystem call inside one of the try
blocks: PermissionError, or any other exception with its type name and
message. -/
inductive PyExc where
  | permissionError
  | otherError (typeName msg : String)

/-- The outcome string the remove_path handlers produce for a caught
exception (lines 365-368). -/
def excMsg : PyExc → String
  | PyExc.permissionError => "ERROR (" ++ "permission denied; run as Administrator)"
  | PyExc.otherError n m => "ERROR (" ++ (n ++ ": " ++ m ++ ")")

/-- The filesystem facts remove_path consults about its argument path. -/
structure PathState where
  pathExists : Bool
  isDir : Bool
  isSymlink : Bool

/-- safe_rel_for_backup (lines 340-342): str(p) with every colon removed,
reparsed as a path; components contain no separator, so this is the
componentwise removal of colons. -/
def safe_rel_for_backup (p : FPath) : FPath :=
  p.map (fun s => String.mk (s.data.filter (fun c => !(c = ':'))))

/-- remove_path (lines 345-368) as a function of the filesystem facts and of
the exception, if any, the destructive call (rmtree, unlink or move) would
raise; the handlers catch every exception and turn it into the outcome
string of the pair. -/
def remove_path (p : FPath) (st : PathState) (backup_dir : Option FPath)
    (permanent_delete : Bool) (fsExc : Option PyExc) : FPath × String :=
  if st.pathExists = false then (p, "SKIP (missing)")
  else if permanent_delete then
    if st.isDir && !st.isSymlink then
      match fsExc with
      | some e => (p, excMsg e)
      | none => (p, "DELETED")
    else
      match fsExc with
      | some e => (p, excMsg e)
      | none => (p, "DELETED")
  else
    match backup_dir with
    | none => (p, "ERROR (no backup dir set)")
    | some bd =>
      match fsExc with
      | some e => (p, excMsg e)
      | none => (p, "MOVED -> " ++ pathStr (bd ++ safe_rel_for_backup p))

/-! ## Text editor (src/remove_nvmp.py lines 374-408) -/

/-- path.name: the final component. -/
def pathName (p : FPath) : String := p.getLastD ""

/-- The effects and messages of one strip_nvmp_lines_from_text_file call:
the rewritten line list when the file was rewritten, the backup copy
(destination path and pristine content) when one was written, and the
returned message list. -/
structure StripResult where
  newContents : Option (List String)
  bak : Option (FPath × List String)
  msgs : List String
deriving DecidableEq

/-- The message of the text-editor exception handlers (lines 405-408). -/
def stripErrMsg (p : FPath) : PyExc → String
  | PyExc.permissionError =>
    "ERROR editing " ++ (pathStr p ++ ": permission denied (run as Administrator)")
  | PyExc.otherError n m =>
    "ERROR editing " ++ (pathStr p ++ ": " ++ (n ++ ": " ++ m))

/-- The message of line 402. -/
def editMsg (p : FPath) (removedCount : Nat) : String :=
  "EDITED: " ++ pathStr p ++ " (removed " ++ toString removedCount ++ " NVMP line(s))"

/-- strip_nvmp_lines_from_text_file (lines 374-408), as a function of the
file facts: the path (for the messages and the bak name), whether it exists
and is a regular file, its decoded lines (each carrying its terminator, as
splitlines(True) yields them), the backup directory, the mode, and the
exception, if any, each filesystem call (read_text, copy2, write_text)
would raise.  The source backs the pristine file up to
backup_dir/name.bak under `not permanent_delete and backup_dir` and again,
identically, under `permanent_delete and backup_dir` (lines 394-399), so
a backup is written exactly when a backup directory was supplied, in either
mode; both arms are kept below. -/
def strip_nvmp_lines_from_text_file (p : FPath) (pathExists isFile : Bool)
    (lines : List String) (backup_dir : Option FPath) (permanent_delete : Bool)
    (readExc copyExc writeExc : Option PyExc) : StripResult :=
  if !(pathExists && isFile) then ⟨none, none, []⟩
  else match readExc with
  | some e => ⟨none, none, [stripErrMsg p e]⟩
  | none =>
    let removed := lines.filter (fun l => pat_match l)
    let kept := lines.filter (fun l => !(pat_match l))
    if removed.isEmpty then ⟨none, none, []⟩
    else match backup_dir with
    | some bd =>
      if permanent_delete = false then
        match copyExc with
        | some e => ⟨none, none, [stripErrMsg p e]⟩
        | none =>
          match writeExc with
          | some e => ⟨none, some (bd ++ [pathName p ++ ".bak"], lines),
              [stripErrMsg p e]⟩
          | none => ⟨some kept, some (bd ++ [pathName p ++ ".bak"], lines),
              [editMsg p removed.length]⟩
      else
        match copyExc with
        | some e => ⟨none, none, [stripErrMsg p e]⟩
        | none =>
          match writeExc with
          | some e => ⟨none, some (bd ++ [pathName p ++ ".bak"], lines),
              [stripErrMsg p e]⟩
          | none => ⟨some kept, some (bd ++ [pathName p ++ ".bak"], lines),
              [editMsg p removed.length]⟩
    | none =>
      match writeExc with
      | some e => ⟨none, none, [stripErrMsg p e]⟩
      | none => ⟨some kept, none, [editMsg p removed.length]⟩

/-- The backup-directory choice of main (lines 476-481): delete mode runs
with backup_dir = None, every other run gets a timestamped directory under
the chosen base (backup_root, lines 336-337). -/
def main_backup_dir (deleteMode : Bool) (base : FPath) (stampStr : String) :
    Option FPath :=
  if deleteMode then none
  else some (base ++ ["NVMP_Removed_" ++ stampStr])

end NVMP

/-! ## Helper lemmas about lowering -/

theorem char_toNat_ofNat_valid (n : Nat) (h : n < 55296) :
    (Char.ofNat n).toNat = n := by
  rw [Char.ofNat, dif_pos (Or.inl h)]
  show (UInt32.ofNat' n _).toNat = n
  rw [UInt32.ofNat']
  show (UInt32.ofNatCore n _).toNat = n
  rfl

theorem char_toLower_idem (c : Char) : c.toLower.toLower = c.toLower := by
  show Char.toLower (Char.toLower c) = Char.toLower c
  rw [Char.toLower, Char.toLower]
  by_cases h : c.toNat ≥ 65 ∧ c.toNat ≤ 90
  · rw [if_pos h]
    have h2 : (Char.ofNat (c.toNat + 32)).toNat = c.toNat + 32 :=
      char_toNat_ofNat_valid _ (by omega)
    rw [if_neg (by rw [h2]; omega)]
  · rw [if_neg h, if_neg h]

theorem lowerStr_idem (s : String) : NVMP.lowerStr (NVMP.lowerStr s) = NVMP.lowerStr s := by
  unfold NVMP.lowerStr
  rw [List.map_map]
  congr 1
  exact List.map_congr_left (fun c _ => char_toLower_idem c)

theorem pat_match_lowerStr (s : String) :
    NVMP.pat_match (NVMP.lowerStr s) = NVMP.pat_match s := by
  unfold NVMP.pat_match
  rw [lowerStr_idem]

/-- C3: the Matcher is case-insensitive (lowering the input never changes the
verdict, and concrete case variants of the known patterns all match), and the
bare abbreviation is matched only at word boundaries: nvmpxyz does not match,
while nvmp alone and nvmp_foo do. -/
theorem C3_matcher_case_insensitive_word_boundary :
    (∀ s : String, NVMP.pat_match (NVMP.lowerStr s) = NVMP.pat_match s)
    ∧ NVMP.pat_match "nvmp" = true
    ∧ NVMP.pat_match "NVMP" = true
    ∧ NVMP.pat_match "NvMp" = true
    ∧ NVMP.pat_match "nvmp_foo" = true
    ∧ NVMP.pat_match "NVMP_FOO" = true
    ∧ NVMP.pat_match "nvmpxyz" = false
    ∧ NVMP.pat_match "NVMPxyz" = false
    ∧ NVMP.pat_match "New Vegas MP" = true
    ∧ NVMP.pat_match "NEWVEGASMP" = true
    ∧ NVMP.pat_match "New  Vegas  Multiplayer" = true
    ∧ NVMP.pat_match "NVMP_Launcher.exe" = true :=
  ⟨pat_match_lowerStr, by decide, by decide, by decide, by decide, by decide,
   by decide, by decide, by decide, by decide, by decide, by decide⟩

/-! ## Lemmas about the covering collapse -/

theorem mem_collapse {paths : List NVMP.FPath} {p : NVMP.FPath} :
    p ∈ NVMP.collapse_covered_paths paths ↔
      p ∈ paths ∧ ∀ q ∈ NVMP.parentsOf p, q ∉ paths := by
  unfold NVMP.collapse_covered_paths
  rw [List.mem_filter, (List.perm_insertionSort _ paths).mem_iff]
  simp only [Bool.not_eq_true', List.any_eq_false, List.contains, List.elem_eq_mem,
    decide_eq_false_iff_not, decide_eq_true_eq]

/-- C2, as amended: no member of the collapse output is a strict descendant
of another member; any path P with an ancestor D in the input is excluded;
and D itself is retained provided no input member is in turn a strict
ancestor of D (without that proviso D can itself be covered and dropped, see
the counterexample). -/
theorem C2_collapse_no_descendants (paths : List NVMP.FPath) :
    (∀ p ∈ NVMP.collapse_covered_paths paths,
      ∀ q ∈ NVMP.collapse_covered_paths paths, q ∉ NVMP.parentsOf p)
    ∧ (∀ D P : NVMP.FPath, D ∈ paths → D ∈ NVMP.parentsOf P →
        P ∉ NVMP.collapse_covered_paths paths)
    ∧ (∀ D : NVMP.FPath, D ∈ paths → (∀ q ∈ NVMP.parentsOf D, q ∉ paths) →
        D ∈ NVMP.collapse_covered_paths paths) := by
  refine ⟨?_, ?_, ?_⟩
  · intro p hp q hq hqpar
    rcases mem_collapse.mp hp with ⟨_, hnone⟩
    rcases mem_collapse.mp hq with ⟨hqin, _⟩
    exact hnone q hqpar hqin
  · intro D P hD hDpar hP
    rcases mem_collapse.mp hP with ⟨_, hnone⟩
    exact hnone D hDpar hD
  · intro D hD hfree
    exact mem_collapse.mpr ⟨hD, hfree⟩

/-- C2, counterexample to the claim as stated: with input a, a-b, a-b-c the
pair D = a-b, P = a-b-c satisfies the premise (D is in the input and an
ancestor of P), yet the collapse drops D as well, so the result does not
retain D. -/
theorem C2_counterexample :
    (["a", "b"] : NVMP.FPath) ∈ [["a"], ["a", "b"], ["a", "b", "c"]]
    ∧ (["a", "b"] : NVMP.FPath) ∈ NVMP.parentsOf ["a", "b", "c"]
    ∧ (["a", "b"] : NVMP.FPath) ∉
        NVMP.collapse_covered_paths [["a"], ["a", "b"], ["a", "b", "c"]] := by
  refine ⟨by decide, by decide, ?_⟩
  intro h
  exact absurd (List.mem_filter.mp h).2 (by decide)

/-- C2 witness: the amended theorem applied at the counterexample input; the
conjuncts with discharged premises give that a-b-c is excluded while the
uncovered top directory a is retained. -/
theorem C2_witness :
    (["a", "b", "c"] : NVMP.FPath) ∉
        NVMP.collapse_covered_paths [["a"], ["a", "b"], ["a", "b", "c"]]
    ∧ (["a"] : NVMP.FPath) ∈
        NVMP.collapse_covered_paths [["a"], ["a", "b"], ["a", "b", "c"]] :=
  ⟨(C2_collapse_no_descendants [["a"], ["a", "b"], ["a", "b", "c"]]).2.1
      ["a", "b"] ["a", "b", "c"] (by decide) (by decide),
   (C2_collapse_no_descendants [["a"], ["a", "b"], ["a", "b", "c"]]).2.2
      ["a"] (by decide) (by decide)⟩

/-- C5: the covering collapse is idempotent; applying it twice yields the
same set of paths as applying it once. -/
theorem C5_collapse_idempotent (paths : List NVMP.FPath) (p : NVMP.FPath) :
    p ∈ NVMP.collapse_covered_paths (NVMP.collapse_covered_paths paths) ↔
      p ∈ NVMP.collapse_covered_paths paths := by
  constructor
  · intro h
    exact (mem_collapse.mp h).1
  · intro h
    rcases mem_collapse.mp h with ⟨hin, hnone⟩
    refine mem_collapse.mpr ⟨h, ?_⟩
    intro q hq hqmem
    exact hnone q hq (mem_collapse.mp hqmem).1

/-! ## Lemmas about the scanner -/

theorem addMatch_length_le (st : NVMP.WalkSt) (p : NVMP.FPath) :
    (NVMP.addMatch st p).matchList.length ≤ st.matchList.length + 1 := by
  unfold NVMP.addMatch
  by_cases h : st.seen.contains (NVMP.lowKey p) = true
  · rw [if_pos h]; omega
  · rw [if_neg h]
    simp

theorem scanNames_length {cap : Nat} {dp : NVMP.FPath} :
    ∀ (names : List String) (st : NVMP.WalkSt), st.matchList.length < cap →
      (∀ st2, NVMP.scanNames cap dp names st = Sum.inl st2 →
        st2.matchList.length < cap)
      ∧ (∀ r, NVMP.scanNames cap dp names st = Sum.inr r → r.length ≤ cap) := by
  intro names
  induction names with
  | nil =>
    intro st h
    refine ⟨?_, ?_⟩
    · intro st2 he
      cases he
      exact h
    · intro r he
      cases he
  | cons n rest ih =>
    intro st h
    by_cases hm : NVMP.pat_match n = true
    · have hlen : (NVMP.addMatch st (dp ++ [n])).matchList.length ≤ cap := by
        have := addMatch_length_le st (dp ++ [n])
        omega
      by_cases hc : cap ≤ (NVMP.addMatch st (dp ++ [n])).matchList.length
      · refine ⟨?_, ?_⟩
        · intro st2 he
          rw [NVMP.scanNames, if_pos hm, if_pos hc] at he
          cases he
        · intro r he
          rw [NVMP.scanNames, if_pos hm, if_pos hc] at he
          cases he
          exact hlen
      · have hrec := ih (NVMP.addMatch st (dp ++ [n])) (by omega)
        refine ⟨?_, ?_⟩
        · intro st2 he
          rw [NVMP.scanNames, if_pos hm, if_neg hc] at he
          exact hrec.1 st2 he
        · intro r he
          rw [NVMP.scanNames, if_pos hm, if_neg hc] at he
          exact hrec.2 r he
    · have hrec := ih st h
      refine ⟨?_, ?_⟩
      · intro st2 he
        rw [NVMP.scanNames, if_neg hm] at he
        exact hrec.1 st2 he
      · intro r he
        rw [NVMP.scanNames, if_neg hm] at he
        exact hrec.2 r he

theorem walkTriples_length {cap : Nat} :
    ∀ (ts : List NVMP.WalkTriple) (st : NVMP.WalkSt), st.matchList.length < cap →
      (∀ st2, NVMP.walkTriples cap ts st = Sum.inl st2 →
        st2.matchList.length < cap)
      ∧ (∀ r, NVMP.walkTriples cap ts st = Sum.inr r → r.length ≤ cap) := by
  intro ts
  induction ts with
  | nil =>
    intro st h
    refine ⟨?_, ?_⟩
    · intro st2 he
      cases he
      exact h
    · intro r he
      cases he
  | cons t rest ih =>
    intro st h
    rw [NVMP.walkTriples]
    rcases hd : NVMP.scanNames cap t.dirpath t.dirnames st with st1 | r1
    · rcases hf : NVMP.scanNames cap t.dirpath t.filenames st1 with st2 | r2
      · have h1 := (scanNames_length t.dirnames st h).1 st1 hd
        have h2 := (scanNames_length t.filenames st1 h1).1 st2 hf
        have hrec := ih st2 h2
        refine ⟨?_, ?_⟩
        · intro st3 he
          simp only [hd, hf] at he
          exact hrec.1 st3 he
        · intro r he
          simp only [hd, hf] at he
          exact hrec.2 r he
      · have h1 := (scanNames_length t.dirnames st h).1 st1 hd
        have h2 := (scanNames_length t.filenames st1 h1).2 r2 hf
        refine ⟨?_, ?_⟩
        · intro st3 he
          simp only [hd, hf] at he
          cases he
        · intro r he
          simp only [hd, hf] at he
          cases he
          exact h2
    · have h1 := (scanNames_length t.dirnames st h).2 r1 hd
      refine ⟨?_, ?_⟩
      · intro st3 he
        simp only [hd] at he
        cases he
      · intro r he
        simp only [hd] at he
        cases he
        exact h1

theorem walkRoots_length {cap : Nat} :
    ∀ (ws : List (List NVMP.WalkTriple)) (st : NVMP.WalkSt),
      st.matchList.length < cap →
      (∀ st2, NVMP.walkRoots cap ws st = Sum.inl st2 →
        st2.matchList.length < cap)
      ∧ (∀ r, NVMP.walkRoots cap ws st = Sum.inr r → r.length ≤ cap) := by
  intro ws
  induction ws with
  | nil =>
    intro st h
    refine ⟨?_, ?_⟩
    · intro st2 he
      cases he
      exact h
    · intro r he
      cases he
  | cons w rest ih =>
    intro st h
    rw [NVMP.walkRoots]
    rcases hw : NVMP.walkTriples cap w st with st1 | r1
    · have h1 := (walkTriples_length w st h).1 st1 hw
      have hrec := ih st1 h1
      refine ⟨?_, ?_⟩
      · intro st2 he
        simp only [hw] at he
        exact hrec.1 st2 he
      · intro r he
        simp only [hw] at he
        exact hrec.2 r he
    · have h1 := (walkTriples_length w st h).2 r1 hw
      refine ⟨?_, ?_⟩
      · intro st2 he
        simp only [hw] at he
        cases he
      · intro r he
        simp only [hw] at he
        cases he
        exact h1

/-- C6, as amended: for a positive cap the scanner returns at most cap
matches (so with cap one and two qualifying artifacts present, exactly one
match comes back, the early stop being an ordinary return value); for cap
zero the check fires only after the first recorded match, so one match can
still be returned, see the counterexample. -/
theorem C6_cap_amended (rootWalks : List (List NVMP.WalkTriple)) (cap : Nat)
    (h : 1 ≤ cap) :
    (NVMP.walk_find_matches rootWalks cap).length ≤ cap
    ∧ NVMP.walk_find_matches
        [[⟨["r"], [], ["nvmp.log", "nvmp_start.exe"]⟩]] 1 = [["r", "nvmp.log"]] := by
  constructor
  · unfold NVMP.walk_find_matches
    rcases hw : NVMP.walkRoots cap rootWalks ⟨[], []⟩ with st | r
    · have h1 := (walkRoots_length rootWalks ⟨[], []⟩ (by simpa using h)).1 st hw
      calc (st.matchList.insertionSort
              (fun p q => NVMP.lexLe (NVMP.lowKey p) (NVMP.lowKey q) = true)).length
          = st.matchList.length := (List.perm_insertionSort _ st.matchList).length_eq
        _ ≤ cap := by omega
    · exact (walkRoots_length rootWalks ⟨[], []⟩ (by simpa using h)).2 r hw
  · decide

/-- C6 witness: the amended bound applied at cap one on the two-artifact
walk, together with the concrete single-match output. -/
theorem C6_witness :
    (NVMP.walk_find_matches [[⟨["r"], [], ["nvmp.log", "nvmp_start.exe"]⟩]] 1).length ≤ 1
    ∧ NVMP.walk_find_matches
        [[⟨["r"], [], ["nvmp.log", "nvmp_start.exe"]⟩]] 1 = [["r", "nvmp.log"]] :=
  C6_cap_amended [[⟨["r"], [], ["nvmp.log", "nvmp_start.exe"]⟩]] 1 (by decide)

/-- C6 counterexample to the claim as stated: with cap zero and one
qualifying artifact, the cap check runs only after the first match is
recorded, so the returned list has one element, not at most zero. -/
theorem C6_counterexample :
    ¬((NVMP.walk_find_matches [[⟨["r"], [], ["nvmp.log"]⟩]] 0).length ≤ 0) := by
  decide

/-! ## Scanner deduplication invariant -/

def WalkInv (st : NVMP.WalkSt) : Prop :=
  st.matchList.Pairwise (fun p q => NVMP.lowKey p ≠ NVMP.lowKey q)
    ∧ ∀ p ∈ st.matchList, NVMP.lowKey p ∈ st.seen

theorem addMatch_inv (st : NVMP.WalkSt) (p : NVMP.FPath) (h : WalkInv st) :
    WalkInv (NVMP.addMatch st p) := by
  unfold NVMP.addMatch
  by_cases hc : st.seen.contains (NVMP.lowKey p) = true
  · rw [if_pos hc]
    exact h
  · rw [if_neg hc]
    have hnotin : NVMP.lowKey p ∉ st.seen := by
      simpa [List.contains] using hc
    constructor
    · rw [List.pairwise_append]
      refine ⟨h.1, List.pairwise_singleton _ _, ?_⟩
      intro a ha b hb
      rcases List.mem_singleton.mp hb with rfl
      intro heq
      exact hnotin (heq ▸ h.2 a ha)
    · intro q hq
      rcases List.mem_append.mp hq with hq1 | hq2
      · exact List.mem_cons_of_mem _ (h.2 q hq1)
      · rcases List.mem_singleton.mp hq2 with rfl
        exact List.mem_cons_self _ _

theorem scanNames_inv {cap : Nat} {dp : NVMP.FPath} :
    ∀ (names : List String) (st : NVMP.WalkSt), WalkInv st →
      (∀ st2, NVMP.scanNames cap dp names st = Sum.inl st2 → WalkInv st2)
      ∧ (∀ r, NVMP.scanNames cap dp names st = Sum.inr r →
          r.Pairwise (fun p q => NVMP.lowKey p ≠ NVMP.lowKey q)) := by
  intro names
  induction names with
  | nil =>
    intro st h
    refine ⟨?_, ?_⟩
    · intro st2 he
      cases he
      exact h
    · intro r he
      cases he
  | cons n rest ih =>
    intro st h
    by_cases hm : NVMP.pat_match n = true
    · have hinv := addMatch_inv st (dp ++ [n]) h
      by_cases hc : cap ≤ (NVMP.addMatch st (dp ++ [n])).matchList.length
      · refine ⟨?_, ?_⟩
        · intro st2 he
          rw [NVMP.scanNames, if_pos hm, if_pos hc] at he
          cases he
        · intro r he
          rw [NVMP.scanNames, if_pos hm, if_pos hc] at he
          cases he
          exact hinv.1
      · have hrec := ih (NVMP.addMatch st (dp ++ [n])) hinv
        refine ⟨?_, ?_⟩
        · intro st2 he
          rw [NVMP.scanNames, if_pos hm, if_neg hc] at he
          exact hrec.1 st2 he
        · intro r he
          rw [NVMP.scanNames, if_pos hm, if_neg hc] at he
          exact hrec.2 r he
    · have hrec := ih st h
      refine ⟨?_, ?_⟩
      · intro st2 he
        rw [NVMP.scanNames, if_neg hm] at he
        exact hrec.1 st2 he
      · intro r he
        rw [NVMP.scanNames, if_neg hm] at he
        exact hrec.2 r he

theorem walkTriples_inv {cap : Nat} :
    ∀ (ts : List NVMP.WalkTriple) (st : NVMP.WalkSt), WalkInv st →
      (∀ st2, NVMP.walkTriples cap ts st = Sum.inl st2 → WalkInv st2)
      ∧ (∀ r, NVMP.walkTriples cap ts st = Sum.inr r →
          r.Pairwise (fun p q => NVMP.lowKey p ≠ NVMP.lowKey q)) := by
  intro ts
  induction ts with
  | nil =>
    intro st h
    refine ⟨?_, ?_⟩
    · intro st2 he
      cases he
      exact h
    · intro r he
      cases he
  | cons t rest ih =>
    intro st h
    rw [NVMP.walkTriples]
    rcases hd : NVMP.scanNames cap t.dirpath t.dirnames st with st1 | r1
    · rcases hf : NVMP.scanNames cap t.dirpath t.filenames st1 with st2 | r2
      · have h1 := (scanNames_inv t.dirnames st h).1 st1 hd
        have h2 := (scanNames_inv t.filenames st1 h1).1 st2 hf
        have hrec := ih st2 h2
        refine ⟨?_, ?_⟩
        · intro st3 he
          simp only [hd, hf] at he
          exact hrec.1 st3 he
        · intro r he
          simp only [hd, hf] at he
          exact hrec.2 r he
      · have h1 := (scanNames_inv t.dirnames st h).1 st1 hd
        have h2 := (scanNames_inv t.filenames st1 h1).2 r2 hf
        refine ⟨?_, ?_⟩
        · intro st3 he
          simp only [hd, hf] at he
          cases he
        · intro r he
          simp only [hd, hf] at he
          cases he
          exact h2
    · have h1 := (scanNames_inv t.dirnames st h).2 r1 hd
      refine ⟨?_, ?_⟩
      · intro st3 he
        simp only [hd] at he
        cases he
      · intro r he
        simp only [hd] at he
        cases he
        exact h1

theorem walkRoots_inv {cap : Nat} :
    ∀ (ws : List (List NVMP.WalkTriple)) (st : NVMP.WalkSt), WalkInv st →
      (∀ st2, NVMP.walkRoots cap ws st = Sum.inl st2 → WalkInv st2)
      ∧ (∀ r, NVMP.walkRoots cap ws st = Sum.inr r →
          r.Pairwise (fun p q => NVMP.lowKey p ≠ NVMP.lowKey q)) := by
  intro ws
  induction ws with
  | nil =>
    intro st h
    refine ⟨?_, ?_⟩
    · intro st2 he
      cases he
      exact h
    · intro r he
      cases he
  | cons w rest ih =>
    intro st h
    rw [NVMP.walkRoots]
    rcases hw : NVMP.walkTriples cap w st with st1 | r1
    · have h1 := (walkTriples_inv w st h).1 st1 hw
      have hrec := ih st1 h1
      refine ⟨?_, ?_⟩
      · intro st2 he
        simp only [hw] at he
        exact hrec.1 st2 he
      · intro r he
        simp only [hw] at he
        exact hrec.2 r he
    · have h1 := (walkTriples_inv w st h).2 r1 hw
      refine ⟨?_, ?_⟩
      · intro st2 he
        simp only [hw] at he
        cases he
      · intro r he
        simp only [hw] at he
        cases he
        exact h1

/-- C10: the match list returned by walk_find_matches never contains two
entries with the same case-folded path string; the scanner deduplicates
case-insensitively as it records matches. -/
theorem C10_no_duplicate_matches (rootWalks : List (List NVMP.WalkTriple))
    (cap : Nat) :
    (NVMP.walk_find_matches rootWalks cap).Pairwise
      (fun p q => NVMP.lowKey p ≠ NVMP.lowKey q) := by
  have h0 : WalkInv ⟨[], []⟩ := ⟨List.Pairwise.nil, by intro p hp; cases hp⟩
  unfold NVMP.walk_find_matches
  rcases hw : NVMP.walkRoots cap rootWalks ⟨[], []⟩ with st | r
  · have h1 := (walkRoots_inv rootWalks ⟨[], []⟩ h0).1 st hw
    exact ((List.perm_insertionSort _ st.matchList).pairwise_iff
      (fun hab => Ne.symm hab)).mpr h1.1
  · exact (walkRoots_inv rootWalks ⟨[], []⟩ h0).2 r hw

/-! ## Lemmas about the root dedup loop -/

theorem dedupExisting_spec (res : NVMP.FPath → Option NVMP.FPath)
    (pathExists : NVMP.FPath → Bool) :
    ∀ (cands : List NVMP.FPath) (seen : List (List Char)),
      (∀ p ∈ NVMP.dedupExisting res pathExists cands seen,
        pathExists p = true ∧ NVMP.lowKey p ∉ seen)
      ∧ (NVMP.dedupExisting res pathExists cands seen).Pairwise
          (fun p q => NVMP.lowKey p ≠ NVMP.lowKey q) := by
  intro cands
  induction cands with
  | nil =>
    intro seen
    refine ⟨?_, List.Pairwise.nil⟩
    intro p hp
    cases hp
  | cons r rest ih =>
    intro seen
    rw [NVMP.dedupExisting]
    by_cases hc : seen.contains (NVMP.lowKey ((res r).getD r)) = true
    · rw [if_pos hc]
      exact ih seen
    · rw [if_neg hc]
      by_cases hx : pathExists ((res r).getD r) = true
      · rw [if_pos hx]
        have hnotin : NVMP.lowKey ((res r).getD r) ∉ seen := by
          simpa [List.contains] using hc
        have hrec := ih (NVMP.lowKey ((res r).getD r) :: seen)
        refine ⟨?_, ?_⟩
        · intro p hp
          rcases List.mem_cons.mp hp with rfl | hp2
          · exact ⟨hx, hnotin⟩
          · have h2 := hrec.1 p hp2
            exact ⟨h2.1, fun hmem => h2.2 (List.mem_cons_of_mem _ hmem)⟩
        · rw [List.pairwise_cons]
          refine ⟨?_, hrec.2⟩
          intro q hq heq
          exact (hrec.1 q hq).2 (heq ▸ List.mem_cons_self _ _)
      · rw [if_neg hx]
        exact ih seen

/-- C7: every member of the root list built by build_roots exists (per the
existence test consulted at the time it was added), no two members share a
case-folded path string, and a concrete case-different duplicate of an
existing path yields a single entry. -/
theorem C7_roots_exist_dedup (game_dir mo2_dir vortex_dir : Option NVMP.FPath)
    (userDirs vortexDefaults mo2Near : List NVMP.FPath)
    (res : NVMP.FPath → Option NVMP.FPath) (pathExists : NVMP.FPath → Bool) :
    (∀ p ∈ NVMP.build_roots game_dir mo2_dir vortex_dir userDirs
        vortexDefaults mo2Near res pathExists, pathExists p = true)
    ∧ (NVMP.build_roots game_dir mo2_dir vortex_dir userDirs vortexDefaults
        mo2Near res pathExists).Pairwise
        (fun p q => NVMP.lowKey p ≠ NVMP.lowKey q)
    ∧ NVMP.build_roots (some ["C:", "FNV"]) none none [["c:", "fnv"]] [] []
        some (fun _ => true)
        = [["C:", "FNV"], ["C:", "FNV", "Data"],
           ["C:", "FNV", "Data", "nvse", "plugins"]] := by
  refine ⟨?_, ?_, by decide⟩
  · intro p hp
    exact ((dedupExisting_spec res pathExists _ []).1 p hp).1
  · exact (dedupExisting_spec res pathExists _ []).2

/-- C7 witness: at a concrete instantiation with a case-different duplicate
candidate, the first retained root indeed exists per the supplied test. -/
theorem C7_witness :
    (fun (_ : NVMP.FPath) => true) (["C:", "FNV"] : NVMP.FPath) = true
    ∧ NVMP.build_roots (some ["C:", "FNV"]) none none [["c:", "fnv"]] [] []
        some (fun _ => true)
        = [["C:", "FNV"], ["C:", "FNV", "Data"],
           ["C:", "FNV", "Data", "nvse", "plugins"]] :=
  ⟨(C7_roots_exist_dedup (some ["C:", "FNV"]) none none [["c:", "fnv"]] [] []
      some (fun _ => true)).1 ["C:", "FNV"] (by decide),
   (C7_roots_exist_dedup (some ["C:", "FNV"]) none none [["c:", "fnv"]] [] []
      some (fun _ => true)).2.2⟩

/-! ## Lemmas about the text editor -/

theorem length_filter_add_length_filter_not {α : Type} (l : List α) (f : α → Bool) :
    (l.filter f).length + (l.filter (fun x => !(f x))).length = l.length := by
  induction l with
  | nil => rfl
  | cons a t ih =>
    by_cases h : f a = true <;> simp [List.filter_cons, h] <;> omega

theorem strip_eval (p : NVMP.FPath) (lines : List String) (bd : Option NVMP.FPath)
    (perm : Bool) :
    NVMP.strip_nvmp_lines_from_text_file p true true lines bd perm none none none
      = if (lines.filter (fun l => NVMP.pat_match l)).isEmpty then ⟨none, none, []⟩
        else ⟨some (lines.filter (fun l => !(NVMP.pat_match l))),
              bd.map (fun b => (b ++ [NVMP.pathName p ++ ".bak"], lines)),
              [NVMP.editMsg p (lines.filter (fun l => NVMP.pat_match l)).length]⟩ := by
  unfold NVMP.strip_nvmp_lines_from_text_file
  by_cases hrem : (lines.filter (fun l => NVMP.pat_match l)).isEmpty = true
  · simp [hrem]
  · cases bd with
    | none => simp [hrem]
    | some b => cases perm <;> simp [hrem]

/-- C9: when no line of an existing text target matches, cleaning is a
no-op; the file is not rewritten, no backup copy is written and no message
is produced. -/
theorem C9_noop_when_no_match (p : NVMP.FPath) (lines : List String)
    (backup_dir : Option NVMP.FPath) (permanent_delete : Bool)
    (h : ∀ l ∈ lines, NVMP.pat_match l = false) :
    NVMP.strip_nvmp_lines_from_text_file p true true lines backup_dir
      permanent_delete none none none
      = ⟨none, none, []⟩ := by
  rw [strip_eval]
  have hrem : lines.filter (fun l => NVMP.pat_match l) = [] := by
    rw [List.filter_eq_nil_iff]
    intro a ha
    simp [h a ha]
  simp [hrem]

/-- C9 witness: a plugin list with no NVMP line is left untouched, with no
backup and no message, in backup mode. -/
theorem C9_witness :
    (∀ l ∈ ["FalloutNV.esm\n", "DeadMoney.esm\n"], NVMP.pat_match l = false)
    ∧ NVMP.strip_nvmp_lines_from_text_file ["C:", "plugins.txt"] true true
        ["FalloutNV.esm\n", "DeadMoney.esm\n"] (some ["C:", "bak"]) false
        none none none
        = ⟨none, none, []⟩ :=
  ⟨by decide,
   C9_noop_when_no_match ["C:", "plugins.txt"]
     ["FalloutNV.esm\n", "DeadMoney.esm\n"] (some ["C:", "bak"]) false (by decide)⟩

/-- C4: cleaning an existing file of N lines of which M match leaves exactly
N minus M lines, the kept lines in their original relative order (the result
is the matching-free sublist of the original), and in backup mode, whenever
a line matched (so that a rewrite happened at all, the matchless case being
the no-op of C9), the pristine line list is copied to
backup_dir/name.bak. -/
theorem C4_text_edit_round_trip (p : NVMP.FPath) (lines : List String)
    (bd : NVMP.FPath) :
    ((NVMP.strip_nvmp_lines_from_text_file p true true lines (some bd) false
        none none none).newContents.getD lines).length
      = lines.length - (lines.filter (fun l => NVMP.pat_match l)).length
    ∧ ((NVMP.strip_nvmp_lines_from_text_file p true true lines (some bd) false
        none none none).newContents.getD lines).Sublist lines
    ∧ (1 ≤ (lines.filter (fun l => NVMP.pat_match l)).length →
        (NVMP.strip_nvmp_lines_from_text_file p true true lines (some bd) false
          none none none).bak
          = some (bd ++ [NVMP.pathName p ++ ".bak"], lines)) := by
  rw [strip_eval]
  by_cases hrem : (lines.filter (fun l => NVMP.pat_match l)).isEmpty = true
  · have hnil : lines.filter (fun l => NVMP.pat_match l) = [] :=
      List.isEmpty_iff.mp hrem
    rw [if_pos hrem]
    refine ⟨?_, ?_, ?_⟩
    · simp [hnil]
    · simp
    · intro hM
      rw [hnil] at hM
      cases hM
  · rw [if_neg hrem]
    refine ⟨?_, ?_, ?_⟩
    · have hsum := length_filter_add_length_filter_not lines (fun l => NVMP.pat_match l)
      simp only [Option.getD_some]
      omega
    · simp only [Option.getD_some]
      exact List.filter_sublist lines
    · intro hM
      rfl

/-- C4 witness: a two-line plugin list with one NVMP line, cleaned in backup
mode, keeps one line and deposits the pristine copy at the expected backup
path. -/
theorem C4_witness :
    ((NVMP.strip_nvmp_lines_from_text_file ["C:", "plugins.txt"] true true
        ["NVMP.esp\n", "FalloutNV.esm\n"] (some ["C:", "bak"]) false
        none none none).newContents.getD
        ["NVMP.esp\n", "FalloutNV.esm\n"]).length = 1
    ∧ (NVMP.strip_nvmp_lines_from_text_file ["C:", "plugins.txt"] true true
        ["NVMP.esp\n", "FalloutNV.esm\n"] (some ["C:", "bak"]) false
        none none none).bak
        = some (["C:", "bak", "plugins.txt.bak"], ["NVMP.esp\n", "FalloutNV.esm\n"]) := by
  have h := C4_text_edit_round_trip ["C:", "plugins.txt"]
    ["NVMP.esp\n", "FalloutNV.esm\n"] ["C:", "bak"]
  refine ⟨?_, ?_⟩
  · rw [h.1]
    decide
  · rw [h.2.2 (by decide)]
    decide

/-- C1, as amended: the text editor writes the pristine backup copy exactly
when a backup directory is supplied, in either mode (the two identical
source branches); but main passes backup_dir = None in permanent-delete
mode, so a delete-mode run of the program writes no bak copy for text edits
(see the counterexample), while every non-delete run has a backup directory
and gets the copy. -/
theorem C1_bak_iff_backup_dir (p : NVMP.FPath) (lines : List String)
    (bd : Option NVMP.FPath) (perm : Bool)
    (h : lines.any (fun l => NVMP.pat_match l) = true) :
    ((NVMP.strip_nvmp_lines_from_text_file p true true lines bd perm
        none none none).bak.isSome = bd.isSome)
    ∧ (∀ base stampStr, NVMP.main_backup_dir true base stampStr = none)
    ∧ (∀ base stampStr, (NVMP.main_backup_dir false base stampStr).isSome = true) := by
  refine ⟨?_, fun base stampStr => rfl, fun base stampStr => rfl⟩
  rw [strip_eval]
  have hne : ¬(lines.filter (fun l => NVMP.pat_match l)).isEmpty = true := by
    rw [List.isEmpty_iff]
    intro hnil
    rcases List.any_eq_true.mp h with ⟨l, hl, hpl⟩
    have hmem : l ∈ lines.filter (fun l => NVMP.pat_match l) :=
      List.mem_filter.mpr ⟨hl, hpl⟩
    rw [hnil] at hmem
    cases hmem
  rw [if_neg hne]
  exact Option.isSome_map'

/-- C1, counterexample to the claim as stated: in permanent-delete mode main
passes no backup directory at all, so cleaning a plugin list containing an
NVMP line rewrites the file yet writes no bak copy anywhere. -/
theorem C1_counterexample :
    NVMP.main_backup_dir true ["C:", "work"] "20250101_000000" = none
    ∧ (NVMP.strip_nvmp_lines_from_text_file ["C:", "Data", "plugins.txt"] true true
        ["NVMP.esp\n", "FalloutNV.esm\n"]
        (NVMP.main_backup_dir true ["C:", "work"] "20250101_000000") true
        none none none).newContents = some ["FalloutNV.esm\n"]
    ∧ (NVMP.strip_nvmp_lines_from_text_file ["C:", "Data", "plugins.txt"] true true
        ["NVMP.esp\n", "FalloutNV.esm\n"]
        (NVMP.main_backup_dir true ["C:", "work"] "20250101_000000") true
        none none none).bak = none :=
  ⟨rfl, by decide, by decide⟩

/-- C1 witness: with a matching line and a backup directory supplied the bak
copy is made even in delete mode, and main supplies none exactly in delete
mode. -/
theorem C1_witness :
    (["NVMP.esp\n"].any (fun l => NVMP.pat_match l) = true)
    ∧ ((NVMP.strip_nvmp_lines_from_text_file ["C:", "plugins.txt"] true true
        ["NVMP.esp\n"] (some ["C:", "bak"]) true none none none).bak.isSome
        = (some ["C:", "bak"] : Option NVMP.FPath).isSome) :=
  ⟨by decide,
   (C1_bak_iff_backup_dir ["C:", "plugins.txt"] ["NVMP.esp\n"]
      (some ["C:", "bak"]) true (by decide)).1⟩

/-- C8: remove_path and the text editor convert every per-item failure into
a descriptive outcome attached to that item instead of propagating an
exception; a missing path yields a skip outcome from remove_path and the
silent empty result from the text editor, and every caught exception
becomes an ERROR outcome string.  The text-editor conjuncts cover its whole
exception surface: a failure at read_text, at copy2 (a backup directory
present and a matching line, so the copy runs), at write_text after a
successful copy (the bak survives, the rewrite does not happen), and at
write_text with no backup directory. -/
theorem C8_failures_become_outcomes (p : NVMP.FPath) (st : NVMP.PathState)
    (bd : Option NVMP.FPath) (perm : Bool)
    (fsExc readExc copyExc writeExc : Option NVMP.PyExc)
    (pathExists isFile : Bool) (lines : List String) :
    (st.pathExists = false →
      NVMP.remove_path p st bd perm fsExc = (p, "SKIP (missing)"))
    ∧ (NVMP.remove_path p st bd perm fsExc).1 = p
    ∧ (∀ e, fsExc = some e → st.pathExists = true →
        (perm = true ∨ bd.isSome = true) →
        (NVMP.remove_path p st bd perm fsExc).2 = NVMP.excMsg e)
    ∧ (∀ e, ∃ tail, NVMP.excMsg e = "ERROR (" ++ tail)
    ∧ (pathExists = false →
        NVMP.strip_nvmp_lines_from_text_file p pathExists isFile lines bd perm
          readExc copyExc writeExc = ⟨none, none, []⟩)
    ∧ (∀ e, pathExists = true → isFile = true →
        NVMP.strip_nvmp_lines_from_text_file p pathExists isFile lines bd perm
          (some e) copyExc writeExc = ⟨none, none, [NVMP.stripErrMsg p e]⟩)
    ∧ (∀ e b, (lines.filter (fun l => NVMP.pat_match l)).isEmpty = false →
        NVMP.strip_nvmp_lines_from_text_file p true true lines (some b) perm
          none (some e) writeExc = ⟨none, none, [NVMP.stripErrMsg p e]⟩)
    ∧ (∀ e b, (lines.filter (fun l => NVMP.pat_match l)).isEmpty = false →
        NVMP.strip_nvmp_lines_from_text_file p true true lines (some b) perm
          none none (some e)
          = ⟨none, some (b ++ [NVMP.pathName p ++ ".bak"], lines),
             [NVMP.stripErrMsg p e]⟩)
    ∧ (∀ e, (lines.filter (fun l => NVMP.pat_match l)).isEmpty = false →
        NVMP.strip_nvmp_lines_from_text_file p true true lines none perm
          none none (some e) = ⟨none, none, [NVMP.stripErrMsg p e]⟩)
    ∧ (∀ e, ∃ tail, NVMP.stripErrMsg p e = "ERROR editing " ++ tail) := by
  refine ⟨?_, ?_, ?_, ?_, ?_, ?_, ?_, ?_, ?_, ?_⟩
  · intro h
    unfold NVMP.remove_path
    rw [if_pos h]
  · unfold NVMP.remove_path
    by_cases h1 : st.pathExists = false
    · rw [if_pos h1]
    · rw [if_neg h1]
      by_cases h2 : perm = true
      · rw [if_pos h2]
        by_cases h3 : (st.isDir && !st.isSymlink) = true
        · rw [if_pos h3]
          cases fsExc <;> rfl
        · rw [if_neg h3]
          cases fsExc <;> rfl
      · rw [if_neg h2]
        cases bd with
        | none => rfl
        | some b => cases fsExc <;> rfl
  · intro e he h1 h2
    subst he
    unfold NVMP.remove_path
    rw [if_neg (by simp [h1])]
    rcases h2 with h2 | h2
    · rw [if_pos h2]
      by_cases h3 : (st.isDir && !st.isSymlink) = true
      · rw [if_pos h3]
      · rw [if_neg h3]
    · by_cases hperm : perm = true
      · rw [if_pos hperm]
        by_cases h3 : (st.isDir && !st.isSymlink) = true
        · rw [if_pos h3]
        · rw [if_neg h3]
      · rw [if_neg hperm]
        cases bd with
        | none => cases h2
        | some b => rfl
  · intro e
    cases e with
    | permissionError => exact ⟨"permission denied; run as Administrator)", rfl⟩
    | otherError n m => exact ⟨n ++ ": " ++ m ++ ")", rfl⟩
  · intro h
    unfold NVMP.strip_nvmp_lines_from_text_file
    rw [if_pos (by rw [h]; rfl)]
  · intro e h1 h2
    subst h1
    subst h2
    unfold NVMP.strip_nvmp_lines_from_text_file
    rw [if_neg (by decide)]
  · intro e b hrem
    unfold NVMP.strip_nvmp_lines_from_text_file
    cases perm <;> simp [hrem]
  · intro e b hrem
    unfold NVMP.strip_nvmp_lines_from_text_file
    cases perm <;> simp [hrem]
  · intro e hrem
    unfold NVMP.strip_nvmp_lines_from_text_file
    simp [hrem]
  · intro e
    cases e with
    | permissionError =>
      exact ⟨NVMP.pathStr p ++ ": permission denied (run as Administrator)", rfl⟩
    | otherError n m => exact ⟨NVMP.pathStr p ++ ": " ++ (n ++ ": " ++ m), rfl⟩

/-- C8 witness: a missing path is skipped, not an error, by remove_path, and
a permission failure while writing the cleaned file becomes that single
ERROR message for the file. -/
theorem C8_witness :
    ((⟨false, false, false⟩ : NVMP.PathState).pathExists = false)
    ∧ NVMP.remove_path ["C:", "x"] ⟨false, false, false⟩ none true none
        = (["C:", "x"], "SKIP (missing)")
    ∧ (["NVMP.esp\n"].filter (fun l => NVMP.pat_match l)).isEmpty = false
    ∧ NVMP.strip_nvmp_lines_from_text_file ["C:", "plugins.txt"] true true
        ["NVMP.esp\n"] none false none none (some NVMP.PyExc.permissionError)
        = ⟨none, none, [NVMP.stripErrMsg ["C:", "plugins.txt"]
            NVMP.PyExc.permissionError]⟩ :=
  ⟨rfl,
   (C8_failures_become_outcomes ["C:", "x"] ⟨false, false, false⟩ none true
      none none none none false false []).1 rfl,
   by decide,
   (C8_failures_become_outcomes ["C:", "plugins.txt"] ⟨false, false, false⟩
      none false none none none (some NVMP.PyExc.permissionError) true true
      ["NVMP.esp\n"]).2.2.2.2.2.2.2.2.1 NVMP.PyExc.permissionError (by decide)⟩
